import Mathlib

/-!
Verification of `bank_statement_extractor.py`.

This file shallowly embeds the core of the bank-statement extractor:
the field normalizer (`clean_amount`, `parse_date_try`), the heuristic
text parser (the line-scanning state machine of `extract_transactions`'
fallback branch), the structured table extractor (the camelot branch of
`extract_transactions`), and the flag engine (`flag_transactions`).

Machine reals are modelled by `ℚ` (every value the cleaner can build is
a finite decimal, exactly representable); Python `None` is `Option.none`;
Python exceptions are `Except`.  Regular-expression matching is embedded
by hand as deterministic character-list scanners that mirror the specific
patterns in the source (`AMOUNT_RE`, the date anchors, the word-boundary
flag patterns) including their greedy/backtracking behaviour.
-/

namespace BankStmt

/-- Python `str.isspace` characters relevant to `str.strip()` (ASCII model). -/
def isPySpace (c : Char) : Bool :=
  c = ' ' || c = '\t' || c = '\n' || c = '\r' || c = '\x0b' || c = '\x0c'

/-- Python `str.strip()` on a character list: drop whitespace at both ends. -/
def pyStrip (l : List Char) : List Char :=
  ((l.dropWhile isPySpace).reverse.dropWhile isPySpace).reverse

/-- Python `str.rstrip()`: drop trailing whitespace. -/
def pyRstrip (l : List Char) : List Char :=
  (l.reverse.dropWhile isPySpace).reverse

/-- Worker for `listReplace`, structurally recursive on a fuel that bounds
the input length (each step consumes at least one character). -/
def listReplaceAux : Nat → List Char → List Char → List Char → List Char
  | 0, s, _, _ => s
  | _ + 1, [], _, _ => []
  | fuel + 1, c :: cs, pat, rep =>
    if pat ≠ [] ∧ pat.isPrefixOf (c :: cs) then
      rep ++ listReplaceAux fuel ((c :: cs).drop pat.length) pat rep
    else
      c :: listReplaceAux fuel cs pat rep

/-- Python `str.replace(pat, rep)`: replace all non-overlapping occurrences,
left to right.  (For the empty pattern the source never calls it; we return
the input unchanged in that case.) -/
def listReplace (s pat rep : List Char) : List Char :=
  listReplaceAux s.length s pat rep

/-- Numeric value of an ASCII digit character. -/
def digitVal (c : Char) : Nat := c.toNat - 48

/-- Natural number denoted by a list of ASCII digit characters
(empty list denotes 0, as in Python `float("." ++ ds)` handling). -/
def natOfDigits (l : List Char) : Nat :=
  l.foldl (fun n c => 10 * n + digitVal c) 0

/-- Python `float(s)` restricted to the strings `clean_amount` can feed it
(only digit and `.` characters survive the preceding `re.sub`): succeeds
iff there is at most one dot and at least one digit; the value is the
denoted decimal.  Any other input makes `float` raise, which the caller
turns into `None`. -/
def floatOfCleaned (l : List Char) : Option ℚ :=
  if l.all (fun c => c.isDigit || c = '.') then
    match (l.count '.' : Nat) with
    | 0 => if l = [] then none else some (natOfDigits l)
    | 1 =>
      if l.takeWhile (fun c => c ≠ '.') = [] ∧ ((l.dropWhile (fun c => c ≠ '.')).tail) = []
      then none
      else some (Rat.divInt
        ((natOfDigits (l.takeWhile (fun c => c ≠ '.')) : ℤ) *
            (10 : ℤ) ^ ((l.dropWhile (fun c => c ≠ '.')).tail).length +
          (natOfDigits ((l.dropWhile (fun c => c ≠ '.')).tail) : ℤ))
        ((10 : ℤ) ^ ((l.dropWhile (fun c => c ≠ '.')).tail).length))
    | _ + 2 => none
  else none

/-- `clean_amount` from the source: strip literal `"Cr"`, `"DR"`, `"-"`,
strip outer whitespace, remove `","`, remove every non-digit non-dot
character, then `float(...)` with all failures mapped to `None`. -/
def clean_amount : Option String → Option ℚ
  | none => none
  | some s =>
    let s1 := listReplace (listReplace (listReplace s.data ['C', 'r'] []) ['D', 'R'] []) ['-'] []
    let s2 := pyStrip s1
    let s3 := s2.filter (fun c => c ≠ ',')
    let s4 := s3.filter (fun c => c.isDigit || c = '.')
    if s4 = [] then none else floatOfCleaned s4

theorem natOfDigits_nonneg (l : List Char) : (0 : ℚ) ≤ (natOfDigits l : ℚ) := by
  exact_mod_cast Nat.zero_le _

theorem floatOfCleaned_nonneg (l : List Char) (q : ℚ) (h : floatOfCleaned l = some q) :
    0 ≤ q := by
  unfold floatOfCleaned at h
  split at h
  · split at h
    · split at h
      · exact absurd h (by simp)
      · obtain rfl : ((natOfDigits l : ℚ)) = q := by simpa using h
        exact natOfDigits_nonneg l
    · split at h
      · exact absurd h (by simp)
      · have hq : Rat.divInt
            ((natOfDigits (l.takeWhile (fun c => c ≠ '.')) : ℤ) *
                (10 : ℤ) ^ ((l.dropWhile (fun c => c ≠ '.')).tail).length +
              (natOfDigits ((l.dropWhile (fun c => c ≠ '.')).tail) : ℤ))
            ((10 : ℤ) ^ ((l.dropWhile (fun c => c ≠ '.')).tail).length) = q := by
          simpa using h
        rw [← hq]
        have hA : (0 : ℤ) ≤ (natOfDigits (l.takeWhile (fun c => c ≠ '.')) : ℤ) *
            (10 : ℤ) ^ ((l.dropWhile (fun c => c ≠ '.')).tail).length +
          (natOfDigits ((l.dropWhile (fun c => c ≠ '.')).tail) : ℤ) := by positivity
        have hB : (0 : ℤ) ≤ (10 : ℤ) ^ ((l.dropWhile (fun c => c ≠ '.')).tail).length := by
          positivity
        exact Rat.divInt_nonneg hA hB
    · exact absurd h (by simp)
  · exact absurd h (by simp)

theorem clean_amount_some_nonneg (s : String) (q : ℚ)
    (h : clean_amount (some s) = some q) : 0 ≤ q := by
  simp only [clean_amount] at h
  split at h
  · exact absurd h (by simp)
  · exact floatOfCleaned_nonneg _ q h

/-- Claim C3: `clean_amount` is total over strings: it returns either `none`
or a non-negative rational (no exception, no negative value; `ℚ` has no NaN). -/
theorem C3_clean_amount_total (s : String) :
    clean_amount (some s) = none ∨
      ∃ q : ℚ, clean_amount (some s) = some q ∧ 0 ≤ q := by
  cases h : clean_amount (some s) with
  | none => exact Or.inl rfl
  | some q => exact Or.inr ⟨q, rfl, clean_amount_some_nonneg s q h⟩

/-- Claim C9: `clean_amount` applied to a null input returns null rather than
raising; the amount cleaner is total over the nullable-string domain. -/
theorem C9_clean_amount_none : clean_amount none = none := rfl

/-! ### The generic amount pattern

`AMOUNT_RE = (\d{1,3}(?:,\d{3})*(?:\.\d+)?)` and `AMOUNT_RE.findall`:
a left-to-right non-overlapping scan.  For this pattern the greedy match
never needs to backtrack (a shorter `\d{1,3}` or fewer `,\d\d\d` groups can
never turn a failing continuation into a success, because the continuations
require `,` resp. `.` where a digit stands), so the scan below is an exact
embedding of the regex engine's behaviour on it. -/

/-- Take greedily up to `n` leading ASCII digits. -/
def takeDigitsUpTo : Nat → List Char → List Char × List Char
  | 0, l => ([], l)
  | _ + 1, [] => ([], [])
  | n + 1, c :: cs =>
    if c.isDigit then
      ((takeDigitsUpTo n cs).1.cons c, (takeDigitsUpTo n cs).2)
    else ([], c :: cs)

/-- Greedily consume `(?:,\d{3})*`. -/
def commaGroups : List Char → List Char × List Char
  | [] => ([], [])
  | k :: r1 =>
    if k = ',' then
      match r1 with
      | a :: b :: c :: r =>
        if a.isDigit && b.isDigit && c.isDigit then
          (',' :: a :: b :: c :: (commaGroups r).1, (commaGroups r).2)
        else ([], k :: r1)
      | _ => ([], k :: r1)
    else ([], k :: r1)

/-- Consume the optional `(?:\.\d+)?`. -/
def decimalPart : List Char → List Char × List Char
  | [] => ([], [])
  | k :: r1 =>
    if k = '.' then
      match r1 with
      | c :: r =>
        if c.isDigit then
          ('.' :: (c :: r).takeWhile Char.isDigit, (c :: r).dropWhile Char.isDigit)
        else ([], k :: r1)
      | [] => ([], k :: r1)
    else ([], k :: r1)

theorem takeDigitsUpTo_snd_length (n : Nat) (l : List Char) :
    (takeDigitsUpTo n l).2.length ≤ l.length := by
  induction n generalizing l with
  | zero => simp [takeDigitsUpTo]
  | succ n ih =>
    cases l with
    | nil => simp [takeDigitsUpTo]
    | cons c cs =>
      by_cases h : c.isDigit
      · simp only [takeDigitsUpTo, h, if_pos]
        exact le_trans (ih cs) (by simp)
      · simp [takeDigitsUpTo, h]

theorem dropWhile_length_le (p : Char → Bool) (l : List Char) :
    (l.dropWhile p).length ≤ l.length := by
  induction l with
  | nil => simp
  | cons c cs ih =>
    rw [List.dropWhile]
    split
    · exact le_trans ih (by simp)
    · simp

theorem commaGroups_snd_length (l : List Char) :
    (commaGroups l).2.length ≤ l.length := by
  generalize hn : l.length = n
  induction n using Nat.strong_induction_on generalizing l with
  | _ n ih =>
    rw [commaGroups.eq_def]
    split
    · simp only []
      omega
    · rename_i k r1
      split
      · split
        · rename_i a b c r
          split
          · simp only [List.length_cons] at hn ⊢
            have := ih r.length (by omega) r rfl
            omega
          · simp only []
            omega
        · simp only []
          omega
      · simp only []
        omega

theorem decimalPart_snd_length (l : List Char) :
    (decimalPart l).2.length ≤ l.length := by
  rw [decimalPart.eq_def]
  split
  · simp
  · rename_i k r1
    split
    · split
      · rename_i c r
        split
        · exact le_trans (dropWhile_length_le _ _) (by simp)
        · simp
      · simp
    · simp


/-- One match of `AMOUNT_RE` starting at digit `c`:
`\d{1,3}` (the digit `c` plus up to two more), then comma groups, then the
optional decimal part.  Returns the matched token and the remaining input. -/
def amountTok (c : Char) (cs : List Char) : List Char × List Char :=
  (c :: (takeDigitsUpTo 2 cs).1 ++ (commaGroups (takeDigitsUpTo 2 cs).2).1 ++
      (decimalPart (commaGroups (takeDigitsUpTo 2 cs).2).2).1,
    (decimalPart (commaGroups (takeDigitsUpTo 2 cs).2).2).2)

theorem amountTok_snd_length (c : Char) (cs : List Char) :
    (amountTok c cs).2.length ≤ cs.length := by
  unfold amountTok
  exact le_trans (decimalPart_snd_length _)
    (le_trans (commaGroups_snd_length _) (takeDigitsUpTo_snd_length 2 cs))

/-- Worker for `scanAmounts`, structurally recursive on a fuel that bounds
the input length (each step consumes at least one character). -/
def scanAmountsAux : Nat → List Char → List String
  | 0, _ => []
  | _ + 1, [] => []
  | fuel + 1, c :: cs =>
    if c.isDigit then
      List.asString (amountTok c cs).1 :: scanAmountsAux fuel (amountTok c cs).2
    else scanAmountsAux fuel cs

/-- `AMOUNT_RE.findall`: scan left to right; at a digit, emit the greedy
match and continue after it; otherwise advance one character. -/
def scanAmounts (l : List Char) : List String :=
  scanAmountsAux l.length l

theorem scanAmountsAux_irrel (fuel : Nat) :
    ∀ (fuel' : Nat) (l : List Char), l.length ≤ fuel → l.length ≤ fuel' →
      scanAmountsAux fuel l = scanAmountsAux fuel' l := by
  induction fuel with
  | zero =>
    intro fuel' l h _
    have : l = [] := List.length_eq_zero.mp (Nat.le_zero.mp h)
    subst this
    cases fuel' <;> rfl
  | succ fuel ih =>
    intro fuel' l h h'
    cases l with
    | nil => cases fuel' <;> rfl
    | cons c cs =>
      cases fuel' with
      | zero => exact absurd h' (by simp)
      | succ fuel' =>
        have hlen := amountTok_snd_length c cs
        have h1 : (amountTok c cs).2.length ≤ fuel := by
          simp only [List.length_cons] at h; omega
        have h2 : (amountTok c cs).2.length ≤ fuel' := by
          simp only [List.length_cons] at h'; omega
        have h3 : cs.length ≤ fuel := by
          simp only [List.length_cons] at h; omega
        have h4 : cs.length ≤ fuel' := by
          simp only [List.length_cons] at h'; omega
        cases hd : c.isDigit with
        | true =>
          simp only [scanAmountsAux, hd, if_true]
          rw [ih fuel' (amountTok c cs).2 h1 h2]
        | false =>
          simp only [scanAmountsAux, hd]
          simp only [Bool.false_eq_true, if_false]
          exact ih fuel' cs h3 h4

theorem scanAmounts_nil : scanAmounts [] = [] := rfl

theorem scanAmounts_cons_digit (c : Char) (cs : List Char) (h : c.isDigit = true) :
    scanAmounts (c :: cs) =
      List.asString (amountTok c cs).1 :: scanAmounts (amountTok c cs).2 := by
  unfold scanAmounts
  simp only [List.length_cons, scanAmountsAux, h, if_true]
  rw [scanAmountsAux_irrel cs.length (amountTok c cs).2.length (amountTok c cs).2
    (amountTok_snd_length c cs) (le_refl _)]

theorem scanAmounts_cons_nondigit (c : Char) (cs : List Char) (h : c.isDigit = false) :
    scanAmounts (c :: cs) = scanAmounts cs := by
  unfold scanAmounts
  simp only [List.length_cons, scanAmountsAux, h, if_false]
  exact scanAmountsAux_irrel cs.length cs.length cs (le_refl _) (le_refl _)

/-! ### The heuristic text parser

The fallback branch of `extract_transactions`: a line scan driven by
`date_rx = ^\s*(\d{2}[-or-slash]\d{2}[-or-slash]\d{2,4})\b`
(each separator is independently `-` or the slash).  A line opens a new record
iff (after `rstrip`) it starts with optional whitespace, two digits, a
separator, two digits, a separator and a run of 2–4 digits followed by a
non-word character or the end of the line (a run of 5 or more digits can
never satisfy the trailing `\b`, whichever width `\d{2,4}` retreats to). -/

/-- Membership in the regex word class `\w` (ASCII model). -/
def isWordChar (c : Char) : Bool := c.isAlphanum || c = '_'

/-- Match of `date_rx` against the start of a line: returns the captured
date text (group 1) and the text after the match, or `none`. -/
def dateRxMatch (l : List Char) : Option (String × List Char) :=
  match l.dropWhile isPySpace with
  | d1 :: d2 :: s1 :: d3 :: d4 :: s2 :: ys =>
    if d1.isDigit && d2.isDigit && (s1 = '-' || s1 = '/') &&
        d3.isDigit && d4.isDigit && (s2 = '-' || s2 = '/') then
      if 2 ≤ (ys.takeWhile Char.isDigit).length ∧ (ys.takeWhile Char.isDigit).length ≤ 4 ∧
          (ys.drop (ys.takeWhile Char.isDigit).length = [] ∨
            ¬isWordChar ((ys.drop (ys.takeWhile Char.isDigit).length).headD ' ')) then
        some (List.asString (d1 :: d2 :: s1 :: d3 :: d4 :: s2 :: ys.takeWhile Char.isDigit),
          ys.drop (ys.takeWhile Char.isDigit).length)
      else none
    else none
  | _ => none

/-- A raw transaction record, as built by either extraction strategy
before the final column coercions. -/
structure RawRec where
  transaction_date : String
  description : String
  withdrawal_amount : Option ℚ
  deposit_amount : Option ℚ
  balance : Option ℚ
deriving DecidableEq, Repr

/-- The numeric-token mapping of the heuristic parser: `nums[-3:]` become
withdrawal, deposit, balance; two tokens become deposit, balance; one
becomes balance; zero leave all three null. -/
def numsToWDB (nums : List String) : Option ℚ × Option ℚ × Option ℚ :=
  match nums.reverse with
  | bt :: dt :: wt :: _ =>
    (clean_amount (some wt), clean_amount (some dt), clean_amount (some bt))
  | [bt, dt] => (none, clean_amount (some dt), clean_amount (some bt))
  | [bt] => (none, none, clean_amount (some bt))
  | [] => (none, none, none)

/-- The record opened at an anchor line: captured date, post-date text
stripped as initial description, and the numeric-token mapping of the
whole (rstripped) line. -/
def mkAnchorRec (g : String) (rest : List Char) (nums : List String) : RawRec :=
  { transaction_date := g
    description := List.asString (pyStrip rest)
    withdrawal_amount := (numsToWDB nums).1
    deposit_amount := (numsToWDB nums).2.1
    balance := (numsToWDB nums).2.2 }

/-- Parser state: finalized records so far plus the currently open record. -/
structure PState where
  recs : List RawRec
  cur : Option RawRec
deriving DecidableEq, Repr

/-- The loop body of the fallback parser, for one physical line. -/
def stepLine (st : PState) (rawLine : String) : PState :=
  match dateRxMatch (pyRstrip rawLine.data) with
  | some (g, rest) =>
    { recs := st.recs ++ st.cur.toList
      cur := some (mkAnchorRec g rest (scanAmounts (pyRstrip rawLine.data))) }
  | none =>
    match st.cur with
    | some r =>
      { st with cur := some { r with
          description := r.description ++ " " ++ List.asString (pyStrip (pyRstrip rawLine.data)) } }
    | none => st

/-- End of input: flush the open record. -/
def flushState (st : PState) : List RawRec := st.recs ++ st.cur.toList

/-- The heuristic text parser over the document's physical lines. -/
def heuristicParse (lines : List String) : List RawRec :=
  flushState (lines.foldl stepLine ⟨[], none⟩)

theorem digit_ne_comma (c : Char) (h : c.isDigit = true) : (c = ',') = False := by
  simp only [eq_iff_iff, iff_false]
  rintro rfl; exact absurd h (by decide)

theorem digit_ne_dot (c : Char) (h : c.isDigit = true) : (c = '.') = False := by
  simp only [eq_iff_iff, iff_false]
  rintro rfl; exact absurd h (by decide)

theorem not_pySpace_of_digit (c : Char) (h : c.isDigit = true) : isPySpace c = false := by
  have h1 : c ≠ ' ' := by rintro rfl; exact absurd h (by decide)
  have h2 : c ≠ '\t' := by rintro rfl; exact absurd h (by decide)
  have h3 : c ≠ '\n' := by rintro rfl; exact absurd h (by decide)
  have h4 : c ≠ '\r' := by rintro rfl; exact absurd h (by decide)
  have h5 : c ≠ '\x0b' := by rintro rfl; exact absurd h (by decide)
  have h6 : c ≠ '\x0c' := by rintro rfl; exact absurd h (by decide)
  simp [isPySpace, h1, h2, h3, h4, h5, h6]

theorem not_digit_of_not_word (c : Char) (h : isWordChar c = false) : c.isDigit = false := by
  unfold isWordChar Char.isAlphanum at h
  rcases Bool.or_eq_false_iff.mp h with ⟨h1, _⟩
  exact (Bool.or_eq_false_iff.mp h1).2

theorem commaGroups_not_comma (k : Char) (r1 : List Char) (h : (k = ',') = False) :
    commaGroups (k :: r1) = ([], k :: r1) := by
  rw [commaGroups.eq_def]
  simp only [h, if_false]

theorem decimalPart_not_dot (k : Char) (r1 : List Char) (h : (k = '.') = False) :
    decimalPart (k :: r1) = ([], k :: r1) := by
  rw [decimalPart.eq_def]
  simp only [h, if_false]

/-- Scanning an anchor line: the date prefix itself contributes the four
matches `dd`, `dd`, `yyy`, `y` of `AMOUNT_RE` before any text after the
date is scanned. -/
theorem scanAmounts_anchor (d1 d2 s1 d3 d4 s2 y1 y2 y3 y4 : Char) (rest : List Char)
    (hd1 : d1.isDigit = true) (hd2 : d2.isDigit = true)
    (hd3 : d3.isDigit = true) (hd4 : d4.isDigit = true)
    (hy1 : y1.isDigit = true) (hy2 : y2.isDigit = true)
    (hy3 : y3.isDigit = true) (hy4 : y4.isDigit = true)
    (hs1 : s1 = '-' ∨ s1 = '/') (hs2 : s2 = '-' ∨ s2 = '/')
    (hr : rest = [] ∨ ((rest.headD ' ').isDigit = false ∧
      rest.headD ' ' ≠ ',' ∧ rest.headD ' ' ≠ '.')) :
    scanAmounts (d1 :: d2 :: s1 :: d3 :: d4 :: s2 :: y1 :: y2 :: y3 :: y4 :: rest) =
      [List.asString [d1, d2], List.asString [d3, d4],
        List.asString [y1, y2, y3], List.asString [y4]] ++ scanAmounts rest := by
  have hsep : ∀ s : Char, s = '-' ∨ s = '/' →
      s.isDigit = false ∧ (s = ',') = False ∧ (s = '.') = False := by
    rintro s (rfl | rfl) <;> exact ⟨by decide, by simp, by simp⟩
  obtain ⟨hs1d, hs1c, hs1p⟩ := hsep s1 hs1
  obtain ⟨hs2d, hs2c, hs2p⟩ := hsep s2 hs2
  have hy4c := digit_ne_comma y4 hy4
  have hy4p := digit_ne_dot y4 hy4
  cases rest with
  | nil =>
    simp [scanAmounts_cons_digit, scanAmounts_cons_nondigit, scanAmounts_nil,
      amountTok, takeDigitsUpTo, commaGroups_not_comma, decimalPart_not_dot,
      commaGroups, decimalPart,
      hd1, hd2, hd3, hd4, hy1, hy2, hy3, hy4, hs1d, hs1c, hs1p, hs2d, hs2c, hs2p,
      hy4c, hy4p]
  | cons h t =>
    rcases hr with h' | ⟨hhd, hhc, hhp⟩
    · exact absurd h' (by simp)
    · simp only [List.headD_cons] at hhd hhc hhp
      have hhc' : (h = ',') = False := by simp [hhc]
      have hhp' : (h = '.') = False := by simp [hhp]
      simp [scanAmounts_cons_digit, scanAmounts_cons_nondigit,
        amountTok, takeDigitsUpTo, commaGroups_not_comma, decimalPart_not_dot,
        hd1, hd2, hd3, hd4, hy1, hy2, hy3, hy4, hs1d, hs1c, hs1p, hs2d, hs2c, hs2p,
        hy4c, hy4p, hhd, hhc', hhp']

/-- Matching `date_rx` against a line that literally starts with a
two-digit day, separator, two-digit month, separator and a four-digit year
followed by a word boundary: the whole date is captured. -/
theorem dateRxMatch_anchor (d1 d2 s1 d3 d4 s2 y1 y2 y3 y4 : Char) (rest : List Char)
    (hd1 : d1.isDigit = true) (hd2 : d2.isDigit = true)
    (hd3 : d3.isDigit = true) (hd4 : d4.isDigit = true)
    (hy1 : y1.isDigit = true) (hy2 : y2.isDigit = true)
    (hy3 : y3.isDigit = true) (hy4 : y4.isDigit = true)
    (hs1 : s1 = '-' ∨ s1 = '/') (hs2 : s2 = '-' ∨ s2 = '/')
    (hb : rest = [] ∨ isWordChar (rest.headD ' ') = false) :
    dateRxMatch (d1 :: d2 :: s1 :: d3 :: d4 :: s2 :: y1 :: y2 :: y3 :: y4 :: rest) =
      some (List.asString [d1, d2, s1, d3, d4, s2, y1, y2, y3, y4], rest) := by
  have hns := not_pySpace_of_digit d1 hd1
  have hsb1 : (s1 = '-' || s1 = '/') = true := by
    rcases hs1 with rfl | rfl <;> decide
  have hsb2 : (s2 = '-' || s2 = '/') = true := by
    rcases hs2 with rfl | rfl <;> decide
  cases rest with
  | nil =>
    simp [dateRxMatch, List.dropWhile, List.takeWhile, hns,
      hd1, hd2, hd3, hd4, hy1, hy2, hy3, hy4, hsb1, hsb2]
  | cons h t =>
    rcases hb with h' | hw
    · exact absurd h' (by simp)
    · simp only [List.headD_cons] at hw
      have hwd := not_digit_of_not_word h hw
      simp [dateRxMatch, List.dropWhile, List.takeWhile, hns,
        hd1, hd2, hd3, hd4, hy1, hy2, hy3, hy4, hsb1, hsb2, hw, hwd]

/-- Claim C1 is refuted at this input: the anchor line
`01-01-2023 Salary 1,234.50` has exactly one `AMOUNT_RE` match in its
post-date text, yet the emitted record has `withdrawal_amount = 202` and
`deposit_amount = 3` (fragments of the date), not null as the claim
states; only the balance equals the cleaned token `1234.50`. -/
theorem C1_counterexample :
    (heuristicParse ["01-01-2023 Salary 1,234.50"]).map
        (fun r => (r.withdrawal_amount, r.deposit_amount, r.balance)) =
      [(some 202, some 3, some (Rat.divInt 2469 2))] ∧
    scanAmounts " Salary 1,234.50".data = ["1,234.50"] ∧
    ¬ ∀ r ∈ heuristicParse ["01-01-2023 Salary 1,234.50"],
        r.withdrawal_amount = none ∧ r.deposit_amount = none := by
  refine ⟨by decide, by decide, fun hall => ?_⟩
  have h2 := hall
    { transaction_date := "01-01-2023", description := "Salary 1,234.50",
      withdrawal_amount := some 202, deposit_amount := some 3,
      balance := some (Rat.divInt 2469 2) } (by decide)
  exact absurd h2.1 (by decide)

/-- Claim C1 (amended): numeric tokens are extracted from the whole anchor
line, date included, so a 4-digit-year anchor date contributes the four
matches `dd`, `dd`, `yyy`, `y`; for an anchor line whose post-date text
contains exactly one amount token `t`, the emitted record has balance equal
to the cleaned value of `t`, while withdrawal and deposit are the cleaned
date fragments `yyy` and `y` (not null). -/
theorem C1_amended (d1 d2 s1 d3 d4 s2 y1 y2 y3 y4 : Char) (rest : List Char) (t : String)
    (hd1 : d1.isDigit = true) (hd2 : d2.isDigit = true)
    (hd3 : d3.isDigit = true) (hd4 : d4.isDigit = true)
    (hy1 : y1.isDigit = true) (hy2 : y2.isDigit = true)
    (hy3 : y3.isDigit = true) (hy4 : y4.isDigit = true)
    (hs1 : s1 = '-' ∨ s1 = '/') (hs2 : s2 = '-' ∨ s2 = '/')
    (hb : rest = [] ∨ (isWordChar (rest.headD ' ') = false ∧
      rest.headD ' ' ≠ ',' ∧ rest.headD ' ' ≠ '.'))
    (hline : pyRstrip (d1 :: d2 :: s1 :: d3 :: d4 :: s2 :: y1 :: y2 :: y3 :: y4 :: rest) =
      d1 :: d2 :: s1 :: d3 :: d4 :: s2 :: y1 :: y2 :: y3 :: y4 :: rest)
    (hscan : scanAmounts rest = [t]) :
    heuristicParse [List.asString
        (d1 :: d2 :: s1 :: d3 :: d4 :: s2 :: y1 :: y2 :: y3 :: y4 :: rest)] =
      [{ transaction_date := List.asString [d1, d2, s1, d3, d4, s2, y1, y2, y3, y4]
         description := List.asString (pyStrip rest)
         withdrawal_amount := clean_amount (some (List.asString [y1, y2, y3]))
         deposit_amount := clean_amount (some (List.asString [y4]))
         balance := clean_amount (some t) }] := by
  have hmatch := dateRxMatch_anchor d1 d2 s1 d3 d4 s2 y1 y2 y3 y4 rest
    hd1 hd2 hd3 hd4 hy1 hy2 hy3 hy4 hs1 hs2
    (by rcases hb with h' | ⟨hw, _, _⟩; exact Or.inl h'; exact Or.inr hw)
  have hscanline := scanAmounts_anchor d1 d2 s1 d3 d4 s2 y1 y2 y3 y4 rest
    hd1 hd2 hd3 hd4 hy1 hy2 hy3 hy4 hs1 hs2
    (by
      rcases hb with h' | ⟨hw, hc, hp⟩
      · exact Or.inl h'
      · exact Or.inr ⟨not_digit_of_not_word _ hw, hc, hp⟩)
  have hdata : (List.asString
      (d1 :: d2 :: s1 :: d3 :: d4 :: s2 :: y1 :: y2 :: y3 :: y4 :: rest)).data =
      d1 :: d2 :: s1 :: d3 :: d4 :: s2 :: y1 :: y2 :: y3 :: y4 :: rest := rfl
  unfold heuristicParse
  simp only [List.foldl_cons, List.foldl_nil, stepLine, hdata, hline, hmatch,
    flushState, mkAnchorRec, hscanline, hscan]
  simp [numsToWDB, hscan]

/-- Witness for the amended claim C1, at the line `01-01-2023 Salary 1,234.50`. -/
theorem C1_amended_witness :
    heuristicParse [List.asString
        ('0' :: '1' :: '-' :: '0' :: '1' :: '-' :: '2' :: '0' :: '2' :: '3' ::
          " Salary 1,234.50".data)] =
      [{ transaction_date := List.asString ['0', '1', '-', '0', '1', '-', '2', '0', '2', '3']
         description := List.asString (pyStrip " Salary 1,234.50".data)
         withdrawal_amount := clean_amount (some (List.asString ['2', '0', '2']))
         deposit_amount := clean_amount (some (List.asString ['3']))
         balance := clean_amount (some "1,234.50") }] :=
  C1_amended '0' '1' '-' '0' '1' '-' '2' '0' '2' '3' " Salary 1,234.50".data "1,234.50"
    (by decide) (by decide) (by decide) (by decide) (by decide) (by decide)
    (by decide) (by decide) (Or.inl rfl) (Or.inl rfl)
    (Or.inr (by decide)) (by decide) (by decide)

/-- Claim C2: the continuation-line state machine.  For the input
`01-01-2023 Salary`, `credit`, `from employer` followed by any further
anchor line, exactly two records are emitted: the first record's
description is `Salary credit from employer` (trimmed continuation text
space-joined), and the second record is opened fresh from the second
anchor line, its description being only that line's post-date text. -/
theorem C2_continuation_merge (l4 : String) (g : String) (rest : List Char)
    (h4 : dateRxMatch (pyRstrip l4.data) = some (g, rest)) :
    heuristicParse ["01-01-2023 Salary", "credit", "from employer", l4] =
      [{ transaction_date := "01-01-2023", description := "Salary credit from employer",
         withdrawal_amount := some 1, deposit_amount := some 202, balance := some 3 },
       mkAnchorRec g rest (scanAmounts (pyRstrip l4.data))] ∧
    (mkAnchorRec g rest (scanAmounts (pyRstrip l4.data))).transaction_date = g ∧
    (mkAnchorRec g rest (scanAmounts (pyRstrip l4.data))).description =
      List.asString (pyStrip rest) := by
  have hstep3 : stepLine (stepLine (stepLine (⟨[], none⟩ : PState)
      "01-01-2023 Salary") "credit") "from employer" =
    (⟨[], some { transaction_date := "01-01-2023",
                 description := "Salary credit from employer",
                 withdrawal_amount := some 1, deposit_amount := some 202,
                 balance := some 3 }⟩ : PState) := by decide
  refine ⟨?_, rfl, rfl⟩
  unfold heuristicParse
  simp only [List.foldl_cons, List.foldl_nil]
  rw [hstep3]
  simp only [stepLine, h4, flushState]
  simp

/-- Witness for claim C2, with `02-01-2023 Rent` as the second anchor line. -/
theorem C2_witness :
    heuristicParse ["01-01-2023 Salary", "credit", "from employer", "02-01-2023 Rent"] =
      [{ transaction_date := "01-01-2023", description := "Salary credit from employer",
         withdrawal_amount := some 1, deposit_amount := some 202, balance := some 3 },
       mkAnchorRec "02-01-2023" " Rent".data
         (scanAmounts (pyRstrip "02-01-2023 Rent".data))] ∧
    (mkAnchorRec "02-01-2023" " Rent".data
      (scanAmounts (pyRstrip "02-01-2023 Rent".data))).transaction_date = "02-01-2023" ∧
    (mkAnchorRec "02-01-2023" " Rent".data
      (scanAmounts (pyRstrip "02-01-2023 Rent".data))).description =
        List.asString (pyStrip " Rent".data) :=
  C2_continuation_merge "02-01-2023 Rent" "02-01-2023" " Rent".data (by decide)

/-- The shape of `date_rx`'s capture group: two digits, a separator,
two digits, a separator, then 2 to 4 digits. -/
def dateShape (s : String) : Bool :=
  match s.data with
  | d1 :: d2 :: s1 :: d3 :: d4 :: s2 :: ys =>
    d1.isDigit && d2.isDigit && (s1 = '-' || s1 = '/') &&
      d3.isDigit && d4.isDigit && (s2 = '-' || s2 = '/') &&
      decide (2 ≤ ys.length) && decide (ys.length ≤ 4) && ys.all Char.isDigit
  | _ => false

/-- A record was opened at `line`: its date text is the anchor capture of
that line, and its description extends the stripped post-date text of that
line (continuation lines only ever append). -/
def FromAnchorLine (line : String) (r : RawRec) : Prop :=
  ∃ rest : List Char,
    dateRxMatch (pyRstrip line.data) = some (r.transaction_date, rest) ∧
      ∃ ext : String, r.description = List.asString (pyStrip rest) ++ ext

theorem takeWhile_all (p : Char → Bool) (l : List Char) :
    (l.takeWhile p).all p = true := by
  induction l with
  | nil => rfl
  | cons c cs ih =>
    rw [List.takeWhile]
    cases hp : p c with
    | true => simp [hp, ih]
    | false => rfl

theorem asString_data (l : List Char) : (List.asString l).data = l := rfl

theorem dateRxMatch_shape (l : List Char) (g : String) (rest : List Char)
    (h : dateRxMatch l = some (g, rest)) : dateShape g = true := by
  unfold dateRxMatch at h
  split at h
  · rename_i d1 d2 s1 d3 d4 s2 ys heq
    split at h
    · rename_i hcond
      split at h
      · rename_i hbnd
        simp only [Option.some.injEq, Prod.mk.injEq] at h
        obtain ⟨hg, hrest⟩ := h
        subst hg
        unfold dateShape
        simp only [asString_data]
        simp only [Bool.and_eq_true] at hcond
        simp [hcond.1.1.1.1.1, hcond.1.1.1.1.2, hcond.1.1.1.2, hcond.1.1.2,
          hcond.1.2, hcond.2, hbnd.1, hbnd.2.1, takeWhile_all]
      · exact absurd h (by simp)
    · exact absurd h (by simp)
  · exact absurd h (by simp)

/-- The invariant carried through the line fold: every finalized record and
the open record have an anchor-shaped date drawn from a processed line,
with the date text excluded from the description. -/
def StInv (processed : List String) (st : PState) : Prop :=
  (∀ r ∈ st.recs, dateShape r.transaction_date = true ∧
    ∃ line ∈ processed, FromAnchorLine line r) ∧
  (∀ r, st.cur = some r → dateShape r.transaction_date = true ∧
    ∃ line ∈ processed, FromAnchorLine line r)

theorem stInv_step (processed : List String) (st : PState) (l : String)
    (h : StInv processed st) : StInv (processed ++ [l]) (stepLine st l) := by
  obtain ⟨hrecs, hcur⟩ := h
  have weaken : ∀ r : RawRec, (∃ line ∈ processed, FromAnchorLine line r) →
      ∃ line ∈ processed ++ [l], FromAnchorLine line r := by
    rintro r ⟨line, hmem, hfrom⟩
    exact ⟨line, List.mem_append_left _ hmem, hfrom⟩
  unfold stepLine
  cases hm : dateRxMatch (pyRstrip l.data) with
  | some p =>
    obtain ⟨g, rest⟩ := p
    constructor
    · intro r hr
      simp only [List.mem_append] at hr
      rcases hr with hr | hr
      · obtain ⟨hs, hp⟩ := hrecs r hr
        exact ⟨hs, weaken r hp⟩
      · obtain ⟨r0, hr0⟩ : ∃ r0, st.cur = some r0 := by
          cases hc : st.cur with
          | none => rw [hc] at hr; simp at hr
          | some r0 => exact ⟨r0, rfl⟩
        rw [hr0] at hr
        simp only [Option.toList_some, List.mem_singleton] at hr
        subst hr
        obtain ⟨hs, hp⟩ := hcur r hr0
        exact ⟨hs, weaken r hp⟩
    · intro r hrr
      simp only [Option.some.injEq] at hrr
      subst hrr
      refine ⟨dateRxMatch_shape _ _ _ hm, l, List.mem_append_right _ (by simp), rest, ?_, "", ?_⟩
      · exact hm
      · simp [mkAnchorRec]
  | none =>
    cases hc : st.cur with
    | none =>
      exact ⟨fun r hr => (fun ⟨hs, hp⟩ => ⟨hs, weaken r hp⟩) (hrecs r hr),
        fun r hrr => by rw [hc] at hrr; exact absurd hrr (by simp)⟩
    | some r0 =>
      constructor
      · intro r hr
        obtain ⟨hs, hp⟩ := hrecs r hr
        exact ⟨hs, weaken r hp⟩
      · intro r hrr
        simp only [Option.some.injEq] at hrr
        subst hrr
        obtain ⟨hs, line, hmem, rest0, hm0, ext0, hdesc⟩ := hcur r0 hc
        refine ⟨hs, line, List.mem_append_left _ hmem, rest0, hm0,
          ext0 ++ " " ++ List.asString (pyStrip (pyRstrip l.data)), ?_⟩
        simp only [hdesc]
        simp [String.append_assoc]

theorem stInv_foldl (ls : List String) :
    ∀ (processed : List String) (st : PState), StInv processed st →
      StInv (processed ++ ls) (ls.foldl stepLine st) := by
  induction ls with
  | nil => intro processed st h; simpa using h
  | cons l ls ih =>
    intro processed st h
    have h1 := stInv_step processed st l h
    have h2 := ih (processed ++ [l]) (stepLine st l) h1
    simpa using h2

/-- Claim C10: every record emitted by the heuristic text parser has a date
text matching the anchor pattern (two digits, separator, two digits,
separator, 2-to-4-digit year), and that date text is excluded from the
description: the description extends the stripped text after the matched
date of some input line. -/
theorem C10_record_invariant (lines : List String) (r : RawRec)
    (hr : r ∈ heuristicParse lines) :
    dateShape r.transaction_date = true ∧ ∃ line ∈ lines, FromAnchorLine line r := by
  have hinit : StInv [] (⟨[], none⟩ : PState) := by
    constructor
    · intro r hr; exact absurd hr (by simp)
    · intro r hrr; exact absurd hrr (by simp)
  have hfin := stInv_foldl lines [] ⟨[], none⟩ hinit
  simp only [List.nil_append] at hfin
  obtain ⟨hrecs, hcur⟩ := hfin
  unfold heuristicParse flushState at hr
  simp only [List.mem_append] at hr
  rcases hr with hr | hr
  · exact hrecs r hr
  · cases hc : (lines.foldl stepLine ⟨[], none⟩).cur with
    | none => rw [hc] at hr; exact absurd hr (by simp)
    | some r0 =>
      rw [hc] at hr
      simp only [Option.toList_some, List.mem_singleton] at hr
      rw [hr]
      exact hcur r0 hc

/-- Witness for claim C10 at a concrete document. -/
theorem C10_witness :
    dateShape ((heuristicParse ["header", "01-01-2023 Salary", "credit"]).headD
      { transaction_date := "", description := "", withdrawal_amount := none,
        deposit_amount := none, balance := none }).transaction_date = true ∧
    ∃ line ∈ ["header", "01-01-2023 Salary", "credit"],
      FromAnchorLine line ((heuristicParse ["header", "01-01-2023 Salary", "credit"]).headD
        { transaction_date := "", description := "", withdrawal_amount := none,
          deposit_amount := none, balance := none }) :=
  C10_record_invariant ["header", "01-01-2023 Salary", "credit"] _ (by decide)

/-! ### The flag engine

`flag_transactions` adds three boolean columns.  The two word-boundary
patterns (`\bDD\b` and the entity alternation, both with `re.I`) are
embedded as a scanner over positions carrying the previous character for
the left boundary check; `RTGS` is a plain case-insensitive substring
search. -/

/-- Left word-boundary check: true at the start of the string or after a
non-word character (all keywords start with a word character). -/
def boundaryB : Option Char → Bool
  | none => true
  | some c => !isWordChar c

/-- A case-insensitive keyword match starting at the head of `s`, with the
right word-boundary check after it (keywords are stored lowercase and end
in a word character). -/
def kwAt (kw : List Char) (s : List Char) : Bool :=
  decide ((s.take kw.length).map Char.toLower = kw) &&
    (match s.drop kw.length with
     | [] => true
     | c :: _ => !isWordChar c)

/-- Scan all positions of the string for a whole-word keyword match,
carrying the previous character for the left boundary. -/
def scanWords (kws : List (List Char)) : Option Char → List Char → Bool
  | _, [] => false
  | prev, c :: cs =>
    (boundaryB prev && kws.any (fun kw => kwAt kw (c :: cs))) || scanWords kws (some c) cs

/-- Case-insensitive substring search (no word boundaries), for `RTGS`. -/
def containsCI (pat : List Char) : List Char → Bool
  | [] => decide (pat = [])
  | c :: cs =>
    decide (((c :: cs).take pat.length).map Char.toLower = pat) || containsCI pat cs

/-- Python `(x or 0)` on a nullable number: `None` (and `0.0`) become `0`. -/
def pyOrZero : Option ℚ → ℚ
  | none => 0
  | some x => x

/-- The default entity watch-list of `flag_transactions`. -/
def entityPattern : List (List Char) :=
  ["guddu".data, "prabhat".data, "arif".data, "coal india".data]

/-- Row rule for `flag_DD_large_withdrawal`:
`(withdrawal_amount or 0) > 10000 and re.search(r'\bDD\b', desc, re.I)`. -/
def flag_DD_large_withdrawal (w : Option ℚ) (desc : String) : Bool :=
  decide (10000 < pyOrZero w) && scanWords ["dd".data] none desc.data

/-- Row rule for `flag_RTGS_large_deposit`:
`(deposit_amount or 0) > 50000 and re.search(r'RTGS', desc, re.I)`. -/
def flag_RTGS_large_deposit (d : Option ℚ) (desc : String) : Bool :=
  decide (50000 < pyOrZero d) && containsCI "rtgs".data desc.data

/-- Row rule for `flag_entities`: a case-insensitive whole-word match of a
watch-list entry in the description. -/
def flag_entities (desc : String) : Bool :=
  scanWords entityPattern none desc.data

/-- `flag_transactions`: pure enrichment of each record with the three
flags, in row order. -/
def flag_transactions (rs : List RawRec) : List (RawRec × Bool × Bool × Bool) :=
  rs.map (fun r =>
    (r, flag_DD_large_withdrawal r.withdrawal_amount r.description,
      flag_RTGS_large_deposit r.deposit_amount r.description,
      flag_entities r.description))

/-- Specification-side reading of a whole-word match: the string splits as
`pre ++ w ++ post` where the lowercased `w` is a keyword, `pre` ends at a
word boundary (empty, or its last character is a non-word character, or at
the very start the `prev` context is boundary-ok), and `post` starts at a
word boundary. -/
def WholeWordSpecFrom (kws : List (List Char)) (prev : Option Char) (s : List Char) : Prop :=
  ∃ pre w post, s = pre ++ w ++ post ∧ (w.map Char.toLower) ∈ kws ∧
    (match pre.getLast? with
     | some c => isWordChar c = false
     | none => boundaryB prev = true) ∧
    (post = [] ∨ ∃ c, post.head? = some c ∧ isWordChar c = false)

/-- Whole-word match of one of `kws` somewhere in `s`, case-insensitively. -/
def WholeWordSpec (kws : List (List Char)) (s : List Char) : Prop :=
  WholeWordSpecFrom kws none s

theorem kwAt_iff (kw s : List Char) : kwAt kw s = true ↔
    ∃ w post, s = w ++ post ∧ w.map Char.toLower = kw ∧
      (post = [] ∨ ∃ c, post.head? = some c ∧ isWordChar c = false) := by
  unfold kwAt
  rw [Bool.and_eq_true, decide_eq_true_eq]
  constructor
  · rintro ⟨h1, h2⟩
    refine ⟨s.take kw.length, s.drop kw.length, (List.take_append_drop _ _).symm, h1, ?_⟩
    cases hd : s.drop kw.length with
    | nil => exact Or.inl rfl
    | cons c cs =>
      rw [hd] at h2
      exact Or.inr ⟨c, rfl, by simpa using h2⟩
  · rintro ⟨w, post, rfl, hw, hpost⟩
    have hlen : kw.length = w.length := by rw [← hw]; simp
    have htake : (w ++ post).take kw.length = w := by
      rw [hlen]; exact List.take_left w post
    have hdrop : (w ++ post).drop kw.length = post := by
      rw [hlen]; exact List.drop_left w post
    rw [htake, hdrop]
    refine ⟨hw, ?_⟩
    rcases hpost with rfl | ⟨c, hc, hcw⟩
    · exact rfl
    · cases post with
      | nil => exact rfl
      | cons c0 cs0 =>
        simp only [List.head?_cons, Option.some.injEq] at hc
        subst hc
        simp [hcw]

theorem scanWords_iff (kws : List (List Char)) (hne : ∀ kw ∈ kws, kw ≠ [])
    (prev : Option Char) (s : List Char) :
    scanWords kws prev s = true ↔ WholeWordSpecFrom kws prev s := by
  induction s generalizing prev with
  | nil =>
    simp only [scanWords, WholeWordSpecFrom]
    constructor
    · intro h; exact absurd h (by simp)
    · rintro ⟨pre, w, post, hsplit, hmem, _, _⟩
      have hlen := congrArg List.length hsplit
      simp only [List.length_nil, List.length_append] at hlen
      have hw0 : w = [] := List.length_eq_zero.mp (by omega)
      subst hw0
      exact absurd hmem (by simpa using hne [])
  | cons c cs ih =>
    simp only [scanWords, Bool.or_eq_true, Bool.and_eq_true, List.any_eq_true]
    constructor
    · rintro (⟨hbd, kw, hkw, hat⟩ | htail)
      · obtain ⟨w, post, hsplit, hw, hpost⟩ := (kwAt_iff kw (c :: cs)).mp hat
        exact ⟨[], w, post, by simpa using hsplit, by rw [hw]; exact hkw, by simpa using hbd,
          hpost⟩
      · obtain ⟨pre, w, post, hsplit, hmem, hleft, hright⟩ := (ih (some c)).mp htail
        refine ⟨c :: pre, w, post, by simp [hsplit], hmem, ?_, hright⟩
        cases pre with
        | nil => simpa [boundaryB] using hleft
        | cons p ps => simpa using hleft
    · rintro ⟨pre, w, post, hsplit, hmem, hleft, hright⟩
      cases pre with
      | nil =>
        left
        simp only [List.nil_append] at hsplit
        refine ⟨by simpa using hleft, w.map Char.toLower, hmem, ?_⟩
        rw [kwAt_iff]
        exact ⟨w, post, hsplit, rfl, hright⟩
      | cons p ps =>
        right
        simp only [List.cons_append, List.cons.injEq] at hsplit
        obtain ⟨rfl, hsplit'⟩ := hsplit
        refine (ih (some c)).mpr ⟨ps, w, post, hsplit', hmem, ?_, hright⟩
        cases ps with
        | nil => simpa [boundaryB] using hleft
        | cons q qs => simpa using hleft

/-- Claim C7: `large_withdrawal` is true iff the withdrawal amount is
non-null and exceeds 10,000 and the description contains a case-insensitive
whole-word `DD`; a null amount is treated as 0 and never triggers the flag.
Includes the two concrete cases of the claim. -/
theorem C7_large_withdrawal :
    (∀ (w : Option ℚ) (desc : String),
      flag_DD_large_withdrawal w desc = true ↔
        ((∃ x : ℚ, w = some x ∧ 10000 < x) ∧ WholeWordSpec ["dd".data] desc.data)) ∧
    flag_DD_large_withdrawal (some 15000) "Cash withdrawal DD no 55" = true ∧
    flag_DD_large_withdrawal (some 5000) "Cash withdrawal DD no 55" = false ∧
    (∀ desc : String, flag_DD_large_withdrawal none desc = false) := by
  refine ⟨?_, by decide, by decide, ?_⟩
  · intro w desc
    unfold flag_DD_large_withdrawal WholeWordSpec
    rw [Bool.and_eq_true, decide_eq_true_eq,
      scanWords_iff ["dd".data] (by decide) none desc.data]
    constructor
    · rintro ⟨h1, h2⟩
      cases w with
      | none => exact absurd h1 (by norm_num [pyOrZero])
      | some x => exact ⟨⟨x, rfl, by simpa [pyOrZero] using h1⟩, h2⟩
    · rintro ⟨⟨x, rfl, hx⟩, h2⟩
      exact ⟨by simpa [pyOrZero] using hx, h2⟩
  · intro desc
    unfold flag_DD_large_withdrawal
    have : ¬((10000 : ℚ) < pyOrZero none) := by norm_num [pyOrZero]
    simp [this]

/-- Claim C8: `entity_match` is true iff the description contains a
case-insensitive whole-word match of one of `guddu`, `prabhat`, `arif`,
`coal india`; includes the two concrete cases of the claim (in particular
`Tarifff Co` must not match `arif` inside a larger word). -/
theorem C8_entity_match :
    (∀ desc : String,
      flag_entities desc = true ↔ WholeWordSpec entityPattern desc.data) ∧
    flag_entities "Payment to ARIF TRANSPORT" = true ∧
    flag_entities "Tarifff Co" = false := by
  refine ⟨?_, by decide, by decide⟩
  intro desc
  exact scanWords_iff entityPattern (by decide) none desc.data

/-! ### The structured table extractor

The camelot branch of `extract_transactions`: candidate tables arrive from
the external table-detection collaborator as grids of string cells; the
whole attempt sits in one `try`, so any internal error (modelled as
`Except.error`, e.g. a cell access outside a malformed row) discards
everything produced so far and falls back to the text parser. -/

/-- A candidate table: ordered rows of ordered string cells. -/
abbrev PyTable := List (List String)

/-- One match attempt of `date_pattern` (`\d{2}[-slash]\d{2}[-slash]\d{2,4}`,
no anchors, no trailing boundary) at the start of `l`: greedy, so the year
takes up to 4 of the following digits and needs at least 2. -/
def searchDateAt (l : List Char) : Option (List Char) :=
  match l with
  | d1 :: d2 :: s1 :: d3 :: d4 :: s2 :: ys =>
    if d1.isDigit && d2.isDigit && (s1 = '-' || s1 = '/') &&
        d3.isDigit && d4.isDigit && (s2 = '-' || s2 = '/') then
      if 2 ≤ (ys.takeWhile Char.isDigit).length then
        some (d1 :: d2 :: s1 :: d3 :: d4 :: s2 :: (ys.takeWhile Char.isDigit).take 4)
      else none
    else none
  | _ => none

/-- `date_pattern.search`: try each position left to right and return the
matched text (`m.group(0)`) of the first position that matches. -/
def searchDate : List Char → Option String
  | [] => none
  | c :: cs =>
    match searchDateAt (c :: cs) with
    | some m => some (List.asString m)
    | none => searchDate cs

/-- Count of first-column cells with a date-shaped substring (the table
selection criterion `hits >= 2`), over the raw cells. -/
def tableHits (t : PyTable) : Nat :=
  List.countP (fun c => (searchDate (String.data c)).isSome)
    (t.map (fun row => row.headD ""))

/-- The number of columns of the grid (`df.shape[1]`). -/
def tableNcols (t : PyTable) : Nat := (t.headD []).length

/-- `row[c]`: checked cell access; a malformed (too short) row raises. -/
def cellE (row : List String) (i : Nat) : Except String String :=
  match row.get? i with
  | some c => Except.ok c
  | none => Except.error "KeyError"

/-- One row of the selected table (cells already trimmed by the `applymap`):
skip the row unless its first cell contains a date; with at least 4 columns
the cells strictly between column 0 and the last 3 columns — except that a
table of exactly 4 columns uses `columns[1:-2]`, i.e. column 1 — join into
the description and the last 3 columns clean into withdrawal, deposit,
balance; with fewer than 4 columns the joined tail is the description and
its last 3 amount tokens, if any, feed the three amounts. -/
def processRow (nc : Nat) (row : List String) : Except String (Option RawRec) := do
  let first ← cellE row 0
  match searchDate first.data with
  | none => pure none
  | some date =>
    if 4 ≤ nc then
      let descCols := if 4 < nc then List.range' 1 (nc - 4) else [1]
      let cells ← descCols.mapM (cellE row)
      let desc := List.asString (pyStrip (String.intercalate " " cells).data)
      let t0 ← cellE row (nc - 3)
      let t1 ← cellE row (nc - 2)
      let t2 ← cellE row (nc - 1)
      pure (some
        { transaction_date := date
          description := desc
          withdrawal_amount := if t0 ≠ "" then clean_amount (some t0) else none
          deposit_amount := if t1 ≠ "" then clean_amount (some t1) else none
          balance := if t2 ≠ "" then clean_amount (some t2) else none })
    else
      let rest := String.intercalate " " (row.drop 1)
      match (scanAmounts rest.data).reverse with
      | bt :: dt :: wt :: _ =>
        pure (some
          { transaction_date := date
            description := rest
            withdrawal_amount := clean_amount (some wt)
            deposit_amount := clean_amount (some dt)
            balance := clean_amount (some bt) })
      | _ =>
        pure (some
          { transaction_date := date
            description := rest
            withdrawal_amount := none
            deposit_amount := none
            balance := none })

/-- Process a selected table: trim every cell (`applymap`), then process the
rows in order; a raise anywhere discards the whole table's output. -/
def tableRecords (t : PyTable) : Except String (List RawRec) := do
  let trimmed := t.map (fun row => row.map (fun c => List.asString (pyStrip c.data)))
  let opts ← trimmed.mapM (processRow (tableNcols t))
  pure (opts.filterMap id)

/-- The camelot loop: find the first table with at least two date hits in
its first column whose processing yields a non-empty record list and return
those records; an exception anywhere aborts the whole attempt. -/
def camelotAttempt : List PyTable → Except String (Option (List RawRec))
  | [] => Except.ok none
  | t :: ts =>
    if 2 ≤ tableHits t then
      match tableRecords t with
      | Except.error e => Except.error e
      | Except.ok recs => if recs = [] then camelotAttempt ts else Except.ok (some recs)
    else camelotAttempt ts

/-- Python `str.splitlines` on newline-joined page text (modelled for
newline-terminated text: a trailing terminator yields no extra line). -/
def pySplitLines (s : String) : List String :=
  let ps := s.split (fun c => c = '\n')
  if ps.getLast? = some "" then ps.dropLast else ps

/-- `extract_transactions`: run the structured attempt (the camelot call
itself may fail, which is also an error); only a successful attempt with a
non-empty record list is returned, every other outcome falls back to the
heuristic text parser over the joined page texts. -/
def extract_transactions (camelotRes : Except String (List PyTable))
    (pages : List String) : List RawRec :=
  match (do
      let ts ← camelotRes
      camelotAttempt ts : Except String (Option (List RawRec))) with
  | Except.ok (some recs) => recs
  | _ => heuristicParse (pySplitLines (String.intercalate "\n" pages))

/-- Claim C6: structured-extractor atomicity.  If processing the candidate
tables raises an internal error (in particular partway through the rows of
a selected table), the final output contains zero structured records and is
exactly the heuristic text parser's output for the document. -/
theorem C6_atomic_fallback (tables : List PyTable) (pages : List String) (e : String)
    (h : camelotAttempt tables = Except.error e) :
    extract_transactions (Except.ok tables) pages =
      heuristicParse (pySplitLines (String.intercalate "\n" pages)) := by
  unfold extract_transactions
  rw [show (do
      let ts ← Except.ok tables
      camelotAttempt ts : Except String (Option (List RawRec))) = camelotAttempt tables
    from rfl]
  rw [h]

/-- Witness for claim C6: a selected 5-column table whose first row
processes fine and whose second, malformed row raises on cell access, so
the attempt errors partway through and the output equals the heuristic
parse of the page text. -/
theorem C6_witness :
    extract_transactions (Except.ok
        [[["01-01-2023", "a", "1", "2", "3"], ["02-01-2023", "b", "4"]]])
      ["01-01-2023 rent 5 10 20"] =
      heuristicParse (pySplitLines (String.intercalate "\n" ["01-01-2023 rent 5 10 20"])) :=
  C6_atomic_fallback [[["01-01-2023", "a", "1", "2", "3"], ["02-01-2023", "b", "4"]]]
    ["01-01-2023 rent 5 10 20"] "KeyError" (by rfl)

theorem get?_eq_getD (row : List String) (i : Nat) (h : i < row.length) :
    row.get? i = some (row.getD i "") := by
  rw [List.getD_eq_getD_get?]
  cases hg : row.get? i with
  | none => rw [List.get?_eq_none] at hg; omega
  | some v => rfl

theorem cellE_ok (row : List String) (i : Nat) (h : i < row.length) :
    cellE row i = Except.ok (row.getD i "") := by
  unfold cellE
  rw [get?_eq_getD row i h]

theorem mapM_cellE_ok (row : List String) (idxs : List Nat)
    (h : ∀ i ∈ idxs, i < row.length) :
    idxs.mapM (cellE row) = Except.ok (idxs.map (fun i => row.getD i "")) := by
  induction idxs with
  | nil => rfl
  | cons i is ih =>
    rw [List.mapM_cons, cellE_ok row i (h i (by simp)),
      ih (fun j hj => h j (by simp [hj]))]
    rfl

/-- Claim C5 is refuted on a table of exactly 4 columns: the code takes
`columns[1:-2]`, i.e. column 1 — one of the three amount columns — as the
description, so the description is the withdrawal cell's text (here
`"500"`), not empty as the claim states. -/
theorem C5_counterexample :
    tableRecords [["01-01-2023", "500", "600", "700"],
                  ["02-01-2023", "100", "200", "300"]] =
      Except.ok
        [{ transaction_date := "01-01-2023", description := "500",
           withdrawal_amount := some 500, deposit_amount := some 600,
           balance := some 700 },
         { transaction_date := "02-01-2023", description := "100",
           withdrawal_amount := some 100, deposit_amount := some 200,
           balance := some 300 }] ∧
    ("500" : String) ≠ "" := by
  exact ⟨by rfl, by decide⟩

/-- Claim C5 (amended): in the structured extractor, for a table with
`nc ≥ 4` columns and a row whose first cell matches the date pattern, the
record's description is the trimmed space-join of the cells in the columns
strictly between column 0 and the last 3 columns when `nc > 4`, but of
column 1 alone (`columns[1:-2]`, an amount column) when `nc = 4`; the last
3 columns map left-to-right to withdrawal, deposit, balance through the
amount cleaner, an empty cell giving null. -/
theorem C5_amended (nc : Nat) (row : List String) (dt : String)
    (h4 : 4 ≤ nc) (hlen : nc ≤ row.length)
    (hdate : searchDate (row.getD 0 "").data = some dt) :
    processRow nc row = Except.ok (some
      { transaction_date := dt
        description := List.asString (pyStrip (String.intercalate " "
          ((if 4 < nc then List.range' 1 (nc - 4) else [1]).map
            (fun i => row.getD i ""))).data)
        withdrawal_amount := if row.getD (nc - 3) "" ≠ "" then
          clean_amount (some (row.getD (nc - 3) "")) else none
        deposit_amount := if row.getD (nc - 2) "" ≠ "" then
          clean_amount (some (row.getD (nc - 2) "")) else none
        balance := if row.getD (nc - 1) "" ≠ "" then
          clean_amount (some (row.getD (nc - 1) "")) else none }) := by
  have hbound : ∀ i ∈ (if 4 < nc then List.range' 1 (nc - 4) else [1]), i < row.length := by
    intro i hi
    split at hi
    · rw [List.mem_range'_1] at hi
      omega
    · simp only [List.mem_singleton] at hi
      omega
  unfold processRow
  rw [cellE_ok row 0 (by omega)]
  simp only [Bind.bind, Except.bind]
  split
  · rename_i heq
    rw [hdate] at heq
    exact absurd heq (by simp)
  · rename_i date heq
    rw [hdate] at heq
    obtain rfl : date = dt := (Option.some.inj heq).symm
    rw [if_pos h4, mapM_cellE_ok row _ hbound,
      cellE_ok row (nc - 3) (by omega), cellE_ok row (nc - 2) (by omega),
      cellE_ok row (nc - 1) (by omega)]
    rfl

/-- Witness for the amended claim C5, on a 5-column row. -/
theorem C5_amended_witness :
    processRow 5 ["01-01-2023", "pay x", "1,000", "2,000", "3,000"] = Except.ok (some
      { transaction_date := "01-01-2023"
        description := List.asString (pyStrip (String.intercalate " "
          ((if 4 < 5 then List.range' 1 (5 - 4) else [1]).map
            (fun i => (["01-01-2023", "pay x", "1,000", "2,000", "3,000"]).getD i ""))).data)
        withdrawal_amount := if (["01-01-2023", "pay x", "1,000", "2,000", "3,000"]).getD (5 - 3) "" ≠ "" then
          clean_amount (some ((["01-01-2023", "pay x", "1,000", "2,000", "3,000"]).getD (5 - 3) "")) else none
        deposit_amount := if (["01-01-2023", "pay x", "1,000", "2,000", "3,000"]).getD (5 - 2) "" ≠ "" then
          clean_amount (some ((["01-01-2023", "pay x", "1,000", "2,000", "3,000"]).getD (5 - 2) "")) else none
        balance := if (["01-01-2023", "pay x", "1,000", "2,000", "3,000"]).getD (5 - 1) "" ≠ "" then
          clean_amount (some ((["01-01-2023", "pay x", "1,000", "2,000", "3,000"]).getD (5 - 1) "")) else none }) :=
  C5_amended 5 ["01-01-2023", "pay x", "1,000", "2,000", "3,000"] "01-01-2023"
    (by decide) (by decide) (by rfl)

/-! ### The date normalizer

`parse_date_try` runs `datetime.strptime` against the five explicit
formats in order, then one permissive fallback (the pandas day-first
parse, an external library call modelled as a parameter).  `strptime`
compiles each directive to a regex component and requires the whole string
to match, then builds a `datetime`, whose own range validation can still
reject the parsed numbers (caught and treated as a non-match).  Component
regexes (from CPython `_strptime`):
day `3[0-1]|[1-2]\d|0[1-9]|[1-9]| [1-9]`, month `1[0-2]|0[1-9]|[1-9]`,
two-digit year `\d\d` (pivoted at 68), four-digit year `\d\d\d\d`.
Alternatives are tried in order with full backtracking. -/

/-- A Python `datetime.date` value. -/
structure PyDate where
  year : Nat
  month : Nat
  day : Nat
deriving DecidableEq, Repr

/-- Gregorian leap year, as in `datetime`. -/
def isLeap (y : Nat) : Bool := (y % 4 = 0 && y % 100 ≠ 0) || y % 400 = 0

/-- Days in a month (for months 1–12), as in `datetime`. -/
def daysInMonth (y m : Nat) : Nat :=
  if m = 2 then (if isLeap y then 29 else 28)
  else if m = 4 ∨ m = 6 ∨ m = 9 ∨ m = 11 then 30
  else 31

/-- The dates `datetime.date` can represent. -/
def PyDate.Valid (d : PyDate) : Prop :=
  1 ≤ d.year ∧ d.year ≤ 9999 ∧ 1 ≤ d.month ∧ d.month ≤ 12 ∧
    1 ≤ d.day ∧ d.day ≤ daysInMonth d.year d.month

instance (d : PyDate) : Decidable d.Valid := by
  unfold PyDate.Valid
  infer_instance

/-- `datetime(year, month, day)`: `None` on a range error (caught by the
caller and treated as a format mismatch). -/
def mkDateValid (y m d : Nat) : Option PyDate :=
  if (PyDate.mk y m d).Valid then some ⟨y, m, d⟩ else none

/-- The ordered alternatives of the `%d` regex component, each returning
the parsed value and the remaining input. -/
def matchDayAlts : List Char → List (Nat × List Char)
  | [] => []
  | [c] => if c.isDigit && c ≠ '0' then [(digitVal c, [])] else []
  | c1 :: c2 :: rest =>
    (if c1 = '3' && (c2 = '0' || c2 = '1') then [(30 + digitVal c2, rest)] else []) ++
    (if (c1 = '1' || c1 = '2') && c2.isDigit then
      [(10 * digitVal c1 + digitVal c2, rest)] else []) ++
    (if c1 = '0' && c2.isDigit && c2 ≠ '0' then [(digitVal c2, rest)] else []) ++
    (if c1.isDigit && c1 ≠ '0' then [(digitVal c1, c2 :: rest)] else []) ++
    (if c1 = ' ' && c2.isDigit && c2 ≠ '0' then [(digitVal c2, rest)] else [])

/-- The ordered alternatives of the `%m` regex component. -/
def matchMonthAlts : List Char → List (Nat × List Char)
  | [] => []
  | [c] => if c.isDigit && c ≠ '0' then [(digitVal c, [])] else []
  | c1 :: c2 :: rest =>
    (if c1 = '1' && (c2 = '0' || c2 = '1' || c2 = '2') then
      [(10 + digitVal c2, rest)] else []) ++
    (if c1 = '0' && c2.isDigit && c2 ≠ '0' then [(digitVal c2, rest)] else []) ++
    (if c1.isDigit && c1 ≠ '0' then [(digitVal c1, c2 :: rest)] else [])

/-- The `%Y` component: exactly four digits. -/
def matchY4 : List Char → Option (Nat × List Char)
  | a :: b :: c :: d :: r =>
    if a.isDigit && b.isDigit && c.isDigit && d.isDigit then
      some (1000 * digitVal a + 100 * digitVal b + 10 * digitVal c + digitVal d, r)
    else none
  | _ => none

/-- The `%y` component: exactly two digits (pivot applied separately). -/
def matchY2 : List Char → Option (Nat × List Char)
  | a :: b :: r =>
    if a.isDigit && b.isDigit then some (10 * digitVal a + digitVal b, r)
    else none
  | _ => none

/-- The `%y` pivot: 00–68 are 2000–2068, 69–99 are 1969–1999. -/
def pivotY2 (v : Nat) : Nat := if v ≤ 68 then 2000 + v else 1900 + v

/-- First defined value of a list of attempts, in order. -/
def firstSome : List (Option α) → Option α
  | [] => none
  | none :: rest => firstSome rest
  | some v :: _ => some v

/-- Run a `%d sep %m sep <year>` format against the whole string, with the
regex's ordered backtracking over the day and month alternatives; `yearM`
must consume the entire remaining input. -/
def runDMY (sep : Char) (yearM : List Char → Option (Nat × List Char))
    (yearMap : Nat → Nat) (s : List Char) : Option (Nat × Nat × Nat) :=
  firstSome ((matchDayAlts s).map (fun p =>
    match p.2 with
    | c :: r2 =>
      if c = sep then
        firstSome ((matchMonthAlts r2).map (fun q =>
          match q.2 with
          | c2 :: r4 =>
            if c2 = sep then
              match yearM r4 with
              | some (y, []) => some (yearMap y, q.1, p.1)
              | _ => none
            else none
          | [] => none))
      else none
    | [] => none))

/-- Run the `%Y-%m-%d` format against the whole string. -/
def runYMD (s : List Char) : Option (Nat × Nat × Nat) :=
  match matchY4 s with
  | some (y, c :: r2) =>
    if c = '-' then
      firstSome ((matchMonthAlts r2).map (fun q =>
        match q.2 with
        | c2 :: r4 =>
          if c2 = '-' then
            firstSome ((matchDayAlts r4).map (fun p =>
              match p.2 with
              | [] => some (y, q.1, p.1)
              | _ => none))
          else none
        | [] => none))
    else none
  | _ => none

/-- `datetime.strptime(s, fmt).date()` for one format: regex match of the
whole string, then date construction with range validation. -/
def strptime (runner : List Char → Option (Nat × Nat × Nat)) (s : List Char) :
    Option PyDate :=
  match runner s with
  | some (y, m, d) => mkDateValid y m d
  | none => none

/-- The five explicit formats of `parse_date_try`, in source order. -/
inductive DateFmt
  | dmY_dash
  | dmY_slash
  | dmy_dash
  | dmy_slash
  | Ymd
deriving DecidableEq, Repr

/-- The regex runner of each format. -/
def fmtRunner : DateFmt → List Char → Option (Nat × Nat × Nat)
  | DateFmt.dmY_dash => runDMY '-' matchY4 id
  | DateFmt.dmY_slash => runDMY '/' matchY4 id
  | DateFmt.dmy_dash => runDMY '-' matchY2 pivotY2
  | DateFmt.dmy_slash => runDMY '/' matchY2 pivotY2
  | DateFmt.Ymd => runYMD

/-- The try-order of `parse_date_try`. -/
def fmtList : List DateFmt :=
  [DateFmt.dmY_dash, DateFmt.dmY_slash, DateFmt.dmy_dash, DateFmt.dmy_slash, DateFmt.Ymd]

/-- `parse_date_try`: strip the input, try the five explicit formats in
order, and fall back to the external permissive day-first parse
(a parameter here: it is a pandas call outside this program). -/
def parse_date_try (fallback : String → Option PyDate) (s : String) : Option PyDate :=
  match firstSome (fmtList.map (fun f => strptime (fmtRunner f) (pyStrip s.data))) with
  | some d => some d
  | none => fallback s

/-- The digit character for `n ≤ 9`. -/
def digitChar (n : Nat) : Char := Char.ofNat (48 + n)

/-- Zero-padded two-digit rendering (`%02d`). -/
def pad2 (n : Nat) : List Char := [digitChar (n / 10), digitChar (n % 10)]

/-- Zero-padded four-digit rendering of a year. -/
def pad4 (y : Nat) : List Char :=
  [digitChar (y / 1000), digitChar (y / 100 % 10), digitChar (y / 10 % 10),
    digitChar (y % 10)]

/-- Render a date in a given format (day and month zero-padded to two
digits, the year to four digits or reduced mod 100 for `%y`). -/
def renderDate : DateFmt → PyDate → String
  | DateFmt.dmY_dash, d =>
    List.asString (pad2 d.day ++ '-' :: (pad2 d.month ++ '-' :: pad4 d.year))
  | DateFmt.dmY_slash, d =>
    List.asString (pad2 d.day ++ '/' :: (pad2 d.month ++ '/' :: pad4 d.year))
  | DateFmt.dmy_dash, d =>
    List.asString (pad2 d.day ++ '-' :: (pad2 d.month ++ '-' :: pad2 (d.year % 100)))
  | DateFmt.dmy_slash, d =>
    List.asString (pad2 d.day ++ '/' :: (pad2 d.month ++ '/' :: pad2 (d.year % 100)))
  | DateFmt.Ymd, d =>
    List.asString (pad4 d.year ++ '-' :: (pad2 d.month ++ '-' :: pad2 d.day))

/-- A date is expressible in a format when some string of that format
denotes it: any representable date for the four-digit-year formats, and
only the years 1969–2068 for the two-digit-year formats (the pivot maps
no two-digit year outside that window). -/
def expressible : DateFmt → PyDate → Prop
  | DateFmt.dmy_dash, d => 1969 ≤ d.year ∧ d.year ≤ 2068
  | DateFmt.dmy_slash, d => 1969 ≤ d.year ∧ d.year ≤ 2068
  | _, _ => True

theorem digitChar_isDigit (k : Nat) (h : k ≤ 9) : (digitChar k).isDigit = true := by
  interval_cases k <;> decide

theorem digitVal_digitChar (k : Nat) (h : k ≤ 9) : digitVal (digitChar k) = k := by
  interval_cases k <;> decide

theorem digitChar_ne_dash (k : Nat) (h : k ≤ 9) : (digitChar k = '-') = False := by
  interval_cases k <;> decide

theorem digitChar_ne_slash (k : Nat) (h : k ≤ 9) : (digitChar k = '/') = False := by
  interval_cases k <;> decide

theorem dropWhile_eq_self_of_all (p : Char → Bool) (l : List Char)
    (h : ∀ c ∈ l, p c = false) : l.dropWhile p = l := by
  cases l with
  | nil => rfl
  | cons c cs => simp [List.dropWhile, h c (by simp)]

theorem pyStrip_no_space (l : List Char) (h : ∀ c ∈ l, isPySpace c = false) :
    pyStrip l = l := by
  unfold pyStrip
  rw [dropWhile_eq_self_of_all isPySpace l h,
    dropWhile_eq_self_of_all isPySpace l.reverse (fun c hc => h c (List.mem_reverse.mp hc)),
    List.reverse_reverse]

theorem matchDayAlts_pad2 (n : Nat) (h1 : 1 ≤ n) (h2 : n ≤ 31) (r : List Char) :
    matchDayAlts (pad2 n ++ r) =
      (n, r) :: (if 10 ≤ n then [(n / 10, digitChar (n % 10) :: r)] else []) := by
  interval_cases n <;> rfl

theorem matchMonthAlts_pad2 (n : Nat) (h1 : 1 ≤ n) (h2 : n ≤ 12) (r : List Char) :
    matchMonthAlts (pad2 n ++ r) =
      (n, r) :: (if 10 ≤ n then [(1, digitChar (n % 10) :: r)] else []) := by
  interval_cases n <;> rfl

theorem matchY4_pad4 (y : Nat) (h : y ≤ 9999) (r : List Char) :
    matchY4 (pad4 y ++ r) = some (y, r) := by
  have h1 : y / 1000 ≤ 9 := by omega
  have h2 : y / 100 % 10 ≤ 9 := by omega
  have h3 : y / 10 % 10 ≤ 9 := by omega
  have h4 : y % 10 ≤ 9 := by omega
  simp only [pad4, List.cons_append, List.nil_append, matchY4,
    digitChar_isDigit _ h1, digitChar_isDigit _ h2, digitChar_isDigit _ h3,
    digitChar_isDigit _ h4, Bool.and_self, if_true,
    digitVal_digitChar _ h1, digitVal_digitChar _ h2, digitVal_digitChar _ h3,
    digitVal_digitChar _ h4, Option.some.injEq, Prod.mk.injEq]
  have d1 : y / 100 / 10 = y / 1000 := by rw [Nat.div_div_eq_div_mul]
  have d2 : y / 10 / 10 = y / 100 := by rw [Nat.div_div_eq_div_mul]
  refine ⟨?_, trivial⟩
  omega

theorem matchY2_pad2 (v : Nat) (h : v ≤ 99) (r : List Char) :
    matchY2 (pad2 v ++ r) = some (v, r) := by
  have h1 : v / 10 ≤ 9 := by omega
  have h2 : v % 10 ≤ 9 := by omega
  simp only [pad2, List.cons_append, List.nil_append, matchY2,
    digitChar_isDigit _ h1, digitChar_isDigit _ h2, Bool.and_self, if_true,
    digitVal_digitChar _ h1, digitVal_digitChar _ h2, Option.some.injEq, Prod.mk.injEq]
  refine ⟨?_, trivial⟩
  omega

theorem matchY4_two_digits (v : Nat) : matchY4 (pad2 v) = none := rfl

theorem pivotY2_mod (y : Nat) (h1 : 1969 ≤ y) (h2 : y ≤ 2068) :
    pivotY2 (y % 100) = y := by
  unfold pivotY2
  split <;> omega

theorem firstSome_map_none {α β : Type} (f : α → Option β) (l : List α)
    (h : ∀ x ∈ l, f x = none) : firstSome (l.map f) = none := by
  induction l with
  | nil => rfl
  | cons x xs ih =>
    rw [List.map_cons, h x (by simp), firstSome]
    exact ih (fun x hx => h x (by simp [hx]))

theorem mem_ite_singleton {α : Type} (P : Prop) [Decidable P] (t x : α)
    (h : x ∈ (if P then [t] else ([] : List α))) : x = t := by
  split at h
  · simpa using h
  · simp at h

theorem matchDayAlts_snd (c1 c2 : Char) (rest : List Char) (x : Nat × List Char)
    (hx : x ∈ matchDayAlts (c1 :: c2 :: rest)) : x.2 = rest ∨ x.2 = c2 :: rest := by
  simp only [matchDayAlts] at hx
  rcases List.mem_append.mp hx with h4 | h5
  · rcases List.mem_append.mp h4 with h3 | hD
    · rcases List.mem_append.mp h3 with h2 | hC
      · rcases List.mem_append.mp h2 with hA | hB
        · exact Or.inl (by rw [mem_ite_singleton _ _ _ hA])
        · exact Or.inl (by rw [mem_ite_singleton _ _ _ hB])
      · exact Or.inl (by rw [mem_ite_singleton _ _ _ hC])
    · exact Or.inr (by rw [mem_ite_singleton _ _ _ hD])
  · exact Or.inl (by rw [mem_ite_singleton _ _ _ h5])

theorem runDMY_pad (sep : Char) (yM : List Char → Option (Nat × List Char))
    (yMap : Nat → Nat) (day month : Nat)
    (hd1 : 1 ≤ day) (hd2 : day ≤ 31) (hm1 : 1 ≤ month) (hm2 : month ≤ 12)
    (hsep : sep = '-' ∨ sep = '/') (ytail : List Char) :
    runDMY sep yM yMap (pad2 day ++ sep :: (pad2 month ++ sep :: ytail)) =
      (match yM ytail with
       | some (y, []) => some (yMap y, month, day)
       | _ => none) := by
  have hdsep : ∀ k : Nat, k ≤ 9 → (digitChar k = sep) = False := by
    intro k hk
    rcases hsep with rfl | rfl
    · exact digitChar_ne_dash k hk
    · exact digitChar_ne_slash k hk
  unfold runDMY
  simp only [matchDayAlts_pad2 day hd1 hd2]
  rcases hy : yM ytail with _ | ⟨y, yr⟩
  · by_cases hD : 10 ≤ day <;> by_cases hM : 10 ≤ month <;>
      simp [hD, hM, hy, firstSome, matchMonthAlts_pad2 month hm1 hm2,
        hdsep (day % 10) (by omega), hdsep (month % 10) (by omega)]
  · rcases yr with _ | ⟨c, cr⟩
    · by_cases hD : 10 ≤ day <;> by_cases hM : 10 ≤ month <;>
        simp [hD, hM, hy, firstSome, matchMonthAlts_pad2 month hm1 hm2,
          hdsep (day % 10) (by omega), hdsep (month % 10) (by omega)]
    · by_cases hD : 10 ≤ day <;> by_cases hM : 10 ≤ month <;>
        simp [hD, hM, hy, firstSome, matchMonthAlts_pad2 month hm1 hm2,
          hdsep (day % 10) (by omega), hdsep (month % 10) (by omega)]

theorem runDMY_sep_mismatch (sep sep' : Char) (yM : List Char → Option (Nat × List Char))
    (yMap : Nat → Nat) (day : Nat) (hd1 : 1 ≤ day) (hd2 : day ≤ 31)
    (hsep : sep = '-' ∨ sep = '/') (hne : (sep' = sep) = False) (rest : List Char) :
    runDMY sep yM yMap (pad2 day ++ sep' :: rest) = none := by
  have hdsep : ∀ k : Nat, k ≤ 9 → (digitChar k = sep) = False := by
    intro k hk
    rcases hsep with rfl | rfl
    · exact digitChar_ne_dash k hk
    · exact digitChar_ne_slash k hk
  unfold runDMY
  simp only [matchDayAlts_pad2 day hd1 hd2]
  by_cases hD : 10 ≤ day <;>
    simp [hD, hne, firstSome, hdsep (day % 10) (by omega)]

theorem digit_ne_sep (x sep : Char) (hx : x.isDigit = true)
    (hsep : sep = '-' ∨ sep = '/') : (x = sep) = False := by
  simp only [eq_iff_iff, iff_false]
  rintro rfl
  rcases hsep with h | h <;> rw [h] at hx <;> exact absurd hx (by decide)

theorem runDMY_on_4digits (sep : Char) (yM : List Char → Option (Nat × List Char))
    (yMap : Nat → Nat) (a b c d : Char)
    (hb : b.isDigit = true) (hc : c.isDigit = true)
    (hsep : sep = '-' ∨ sep = '/') (r : List Char) :
    runDMY sep yM yMap (a :: b :: c :: d :: r) = none := by
  unfold runDMY
  apply firstSome_map_none
  intro x hx
  rcases matchDayAlts_snd a b (c :: d :: r) x hx with h2 | h2 <;> rw [h2]
  · simp [digit_ne_sep c sep hc hsep]
  · simp [digit_ne_sep b sep hb hsep]

theorem runYMD_pad (y month day : Nat) (hy : y ≤ 9999)
    (hm1 : 1 ≤ month) (hm2 : month ≤ 12) (hd1 : 1 ≤ day) (hd2 : day ≤ 31) :
    runYMD (pad4 y ++ '-' :: (pad2 month ++ '-' :: pad2 day)) = some (y, month, day) := by
  have hday := matchDayAlts_pad2 day hd1 hd2 []
  rw [List.append_nil] at hday
  unfold runYMD
  rw [matchY4_pad4 y hy]
  simp [matchMonthAlts_pad2 month hm1 hm2, hday, firstSome]

theorem daysInMonth_le_31 (y m : Nat) : daysInMonth y m ≤ 31 := by
  unfold daysInMonth
  split
  · split <;> omega
  · split <;> omega

theorem pad2_chars (n : Nat) (h : n ≤ 99) : ∀ c ∈ pad2 n, c.isDigit = true := by
  intro c hc
  simp only [pad2, List.mem_cons, List.not_mem_nil, or_false] at hc
  rcases hc with rfl | rfl
  · exact digitChar_isDigit _ (by omega)
  · exact digitChar_isDigit _ (by omega)

theorem pad4_chars (y : Nat) (h : y ≤ 9999) : ∀ c ∈ pad4 y, c.isDigit = true := by
  intro c hc
  simp only [pad4, List.mem_cons, List.not_mem_nil, or_false] at hc
  rcases hc with rfl | rfl | rfl | rfl
  · exact digitChar_isDigit _ (by omega)
  · exact digitChar_isDigit _ (by omega)
  · exact digitChar_isDigit _ (by omega)
  · exact digitChar_isDigit _ (by omega)

theorem strip_render (fmt : DateFmt) (d : PyDate) (hy : d.year ≤ 9999)
    (hm : d.month ≤ 12) (hd : d.day ≤ 31) :
    pyStrip (renderDate fmt d).data = (renderDate fmt d).data := by
  apply pyStrip_no_space
  intro c hc
  have hday := pad2_chars d.day (by omega)
  have hmonth := pad2_chars d.month (by omega)
  have hyear4 := pad4_chars d.year hy
  have hyear2 := pad2_chars (d.year % 100) (by omega)
  cases fmt <;>
    simp only [renderDate, asString_data, List.mem_append, List.mem_cons] at hc <;>
    rcases hc with hc | rfl | hc | rfl | hc <;>
    first
      | exact not_pySpace_of_digit c (hday c hc)
      | exact not_pySpace_of_digit c (hmonth c hc)
      | exact not_pySpace_of_digit c (hyear4 c hc)
      | exact not_pySpace_of_digit c (hyear2 c hc)
      | decide

/-- Claim C4: `parse_date_try` round-trips every date expressible in one of
its five explicit formats: rendering `d` in the format and parsing returns
exactly `d`, whatever the permissive fallback would do; the formats are
tried in order and the earlier formats reject the rendered string.  (For
the two-digit-year formats the expressible dates are the years 1969–2068,
the image of the `%y` pivot; on total failure of all five formats the
result is whatever the fallback returns, `null` for a total fallback
failure, and no exception escapes.) -/
theorem C4_parse_date_roundtrip (fb : String → Option PyDate) (fmt : DateFmt)
    (d : PyDate) (hv : d.Valid) (he : expressible fmt d) :
    parse_date_try fb (renderDate fmt d) = some d := by
  obtain ⟨hy1, hy2, hm1, hm2, hd1, hd2⟩ := hv
  have hd31 : d.day ≤ 31 := le_trans hd2 (daysInMonth_le_31 _ _)
  have hmk : mkDateValid d.year d.month d.day = some d := by
    unfold mkDateValid
    rw [if_pos (show (PyDate.mk d.year d.month d.day).Valid from
      ⟨hy1, hy2, hm1, hm2, hd1, hd2⟩)]
  have hY4 : matchY4 (pad4 d.year) = some (d.year, []) := by
    have := matchY4_pad4 d.year hy2 []
    rwa [List.append_nil] at this
  have hY2 : matchY2 (pad2 (d.year % 100)) = some (d.year % 100, []) := by
    have := matchY2_pad2 (d.year % 100) (by omega) []
    rwa [List.append_nil] at this
  have hstrip := strip_render fmt d hy2 hm2 hd31
  unfold parse_date_try
  simp only [fmtList, List.map_cons, List.map_nil, fmtRunner, hstrip]
  cases fmt with
  | dmY_dash =>
    have h1 : strptime (runDMY '-' matchY4 id)
        (pad2 d.day ++ '-' :: (pad2 d.month ++ '-' :: pad4 d.year)) = some d := by
      unfold strptime
      rw [runDMY_pad '-' matchY4 id d.day d.month hd1 hd31 hm1 hm2 (Or.inl rfl)
        (pad4 d.year), hY4]
      simpa using hmk
    simp only [renderDate, asString_data, h1, firstSome]
  | dmY_slash =>
    have h1 : strptime (runDMY '-' matchY4 id)
        (pad2 d.day ++ '/' :: (pad2 d.month ++ '/' :: pad4 d.year)) = none := by
      unfold strptime
      rw [runDMY_sep_mismatch '-' '/' matchY4 id d.day hd1 hd31 (Or.inl rfl) (by decide)]
    have h2 : strptime (runDMY '/' matchY4 id)
        (pad2 d.day ++ '/' :: (pad2 d.month ++ '/' :: pad4 d.year)) = some d := by
      unfold strptime
      rw [runDMY_pad '/' matchY4 id d.day d.month hd1 hd31 hm1 hm2 (Or.inr rfl)
        (pad4 d.year), hY4]
      simpa using hmk
    simp only [renderDate, asString_data, h1, h2, firstSome]
  | dmy_dash =>
    have h1 : strptime (runDMY '-' matchY4 id)
        (pad2 d.day ++ '-' :: (pad2 d.month ++ '-' :: pad2 (d.year % 100))) = none := by
      unfold strptime
      rw [runDMY_pad '-' matchY4 id d.day d.month hd1 hd31 hm1 hm2 (Or.inl rfl)
        (pad2 (d.year % 100)), matchY4_two_digits]
    have h2 : strptime (runDMY '/' matchY4 id)
        (pad2 d.day ++ '-' :: (pad2 d.month ++ '-' :: pad2 (d.year % 100))) = none := by
      unfold strptime
      rw [runDMY_sep_mismatch '/' '-' matchY4 id d.day hd1 hd31 (Or.inr rfl) (by decide)]
    have h3 : strptime (runDMY '-' matchY2 pivotY2)
        (pad2 d.day ++ '-' :: (pad2 d.month ++ '-' :: pad2 (d.year % 100))) = some d := by
      unfold strptime
      rw [runDMY_pad '-' matchY2 pivotY2 d.day d.month hd1 hd31 hm1 hm2 (Or.inl rfl)
        (pad2 (d.year % 100)), hY2]
      simp [pivotY2_mod d.year he.1 he.2, hmk]
    simp only [renderDate, asString_data, h1, h2, h3, firstSome]
  | dmy_slash =>
    have h1 : strptime (runDMY '-' matchY4 id)
        (pad2 d.day ++ '/' :: (pad2 d.month ++ '/' :: pad2 (d.year % 100))) = none := by
      unfold strptime
      rw [runDMY_sep_mismatch '-' '/' matchY4 id d.day hd1 hd31 (Or.inl rfl) (by decide)]
    have h2 : strptime (runDMY '/' matchY4 id)
        (pad2 d.day ++ '/' :: (pad2 d.month ++ '/' :: pad2 (d.year % 100))) = none := by
      unfold strptime
      rw [runDMY_pad '/' matchY4 id d.day d.month hd1 hd31 hm1 hm2 (Or.inr rfl)
        (pad2 (d.year % 100)), matchY4_two_digits]
    have h3 : strptime (runDMY '-' matchY2 pivotY2)
        (pad2 d.day ++ '/' :: (pad2 d.month ++ '/' :: pad2 (d.year % 100))) = none := by
      unfold strptime
      rw [runDMY_sep_mismatch '-' '/' matchY2 pivotY2 d.day hd1 hd31 (Or.inl rfl)
        (by decide)]
    have h4 : strptime (runDMY '/' matchY2 pivotY2)
        (pad2 d.day ++ '/' :: (pad2 d.month ++ '/' :: pad2 (d.year % 100))) = some d := by
      unfold strptime
      rw [runDMY_pad '/' matchY2 pivotY2 d.day d.month hd1 hd31 hm1 hm2 (Or.inr rfl)
        (pad2 (d.year % 100)), hY2]
      simp [pivotY2_mod d.year he.1 he.2, hmk]
    simp only [renderDate, asString_data, h1, h2, h3, h4, firstSome]
  | Ymd =>
    have hshape : pad4 d.year ++ '-' :: (pad2 d.month ++ '-' :: pad2 d.day) =
        digitChar (d.year / 1000) :: digitChar (d.year / 100 % 10) ::
          digitChar (d.year / 10 % 10) :: digitChar (d.year % 10) ::
          ('-' :: (pad2 d.month ++ '-' :: pad2 d.day)) := rfl
    have hb : (digitChar (d.year / 100 % 10)).isDigit = true :=
      digitChar_isDigit _ (by omega)
    have hc : (digitChar (d.year / 10 % 10)).isDigit = true :=
      digitChar_isDigit _ (by omega)
    have hfail : ∀ (sep : Char), sep = '-' ∨ sep = '/' →
        ∀ (yM : List Char → Option (Nat × List Char)) (yMap : Nat → Nat),
        strptime (runDMY sep yM yMap)
          (pad4 d.year ++ '-' :: (pad2 d.month ++ '-' :: pad2 d.day)) = none := by
      intro sep hsep yM yMap
      unfold strptime
      rw [hshape, runDMY_on_4digits sep yM yMap _ _ _ _ hb hc hsep]
    have h5 : strptime runYMD
        (pad4 d.year ++ '-' :: (pad2 d.month ++ '-' :: pad2 d.day)) = some d := by
      unfold strptime
      rw [runYMD_pad d.year d.month d.day hy2 hm1 hm2 hd1 hd31]
      exact hmk
    simp only [renderDate, asString_data, hfail '-' (Or.inl rfl), hfail '/' (Or.inr rfl),
      h5, firstSome]

/-- Witness for claim C4: the date 2023-01-05 rendered in each of the five
formats parses back to itself (with a fallback that always fails,
demonstrating the explicit formats alone decide these inputs). -/
theorem C4_witness :
    parse_date_try (fun _ => none) (renderDate DateFmt.dmY_dash ⟨2023, 1, 5⟩) =
        some ⟨2023, 1, 5⟩ ∧
    parse_date_try (fun _ => none) (renderDate DateFmt.dmy_slash ⟨2023, 1, 5⟩) =
        some ⟨2023, 1, 5⟩ ∧
    parse_date_try (fun _ => none) (renderDate DateFmt.Ymd ⟨2023, 1, 5⟩) =
        some ⟨2023, 1, 5⟩ :=
  ⟨C4_parse_date_roundtrip (fun _ => none) DateFmt.dmY_dash ⟨2023, 1, 5⟩
      (by decide) (by trivial),
   C4_parse_date_roundtrip (fun _ => none) DateFmt.dmy_slash ⟨2023, 1, 5⟩
      (by decide) ⟨by decide, by decide⟩,
   C4_parse_date_roundtrip (fun _ => none) DateFmt.Ymd ⟨2023, 1, 5⟩
      (by decide) (by trivial)⟩

end BankStmt
